import Mathlib

/-!
Verification of the JonBuhTrader backtesting core.  This file gives a shallow
embedding of the broker execution simulator (`pkg/backtester/broker.go`), the
position ledger (`pkg/backtester/events.go`), the capital allocator
(`pkg/strategy/allocation.go`) and the FIFO trade matcher and performance
analyzer (`pkg/backtester/results.go`), together with theorems settling the
specification's claims about them.  Go `float64` values are modelled as
rationals; the `rand.Float64()` sample drawn by the broker is passed in as an
explicit parameter.
-/

namespace JonBuh

/-- Side of an order (Go `strategy.OrderSide`, the strings "BUY"/"SELL"). -/
inductive OrderSide where
  | buy
  | sell
deriving DecidableEq, Repr

/-- Kind of an order (Go `strategy.OrderType`: market, limit or stop). -/
inductive OrderType where
  | market
  | limit
  | stop
deriving DecidableEq, Repr

/-- One OHLCV bar (Go `strategy.BarData`); `openPrice` embeds the `Open`
field, which is a reserved word in Lean. -/
structure BarData where
  symbol : String
  timestamp : Int
  openPrice : ℚ
  high : ℚ
  low : ℚ
  close : ℚ
  volume : ℚ
deriving DecidableEq, Repr

/-- An order (Go `strategy.Order`); `otype` embeds the `Type` field.  The
`ID`/`Timestamp` bookkeeping fields are omitted: nothing in the verified code
reads them. -/
structure Order where
  symbol : String
  side : OrderSide
  otype : OrderType
  quantity : ℚ
  price : ℚ
  stopPrice : ℚ
  strategyName : String
  reason : String
deriving DecidableEq, Repr

/-- A completed trade (Go `strategy.TradeEvent`); the `ID`/`OrderID` strings
are omitted. -/
structure TradeEvent where
  symbol : String
  side : OrderSide
  quantity : ℚ
  price : ℚ
  timestamp : Int
  commission : ℚ
  secFee : ℚ
  finraTaf : ℚ
  slippage : ℚ
  strategyName : String
  reason : String
deriving DecidableEq, Repr

/-- A ledger position (Go `strategy.Position`). -/
structure Position where
  symbol : String
  quantity : ℚ
  avgPrice : ℚ
  marketValue : ℚ
  unrealizedPL : ℚ
  realizedPL : ℚ
deriving DecidableEq, Repr

/-- The ledger state (Go `backtester.Portfolio`).  The Go `map[string]*Position`
is embedded as an association list with distinct keys maintained by
`setPos`/`removePos`; the equity-curve slice is not needed by any claim. -/
structure Portfolio where
  cash : ℚ
  initialCash : ℚ
  positions : List (String × Position)
  trades : List TradeEvent
  totalValue : ℚ
  maxDrawdown : ℚ
  currentDrawdown : ℚ
  peakValue : ℚ
deriving DecidableEq, Repr

/-- Commission model (Go `backtester.CommissionType`). -/
inductive CommissionType where
  | percentage
  | fixed
deriving DecidableEq, Repr

/-- Commission configuration (Go `backtester.CommissionConfig`). -/
structure CommissionConfig where
  ctype : CommissionType
  rate : ℚ
deriving DecidableEq, Repr

/-- Commission on a trade value (Go `CommissionConfig.CalculateCommission`;
the Go `default` branch coincides with the percentage branch). -/
def calculateCommission (cc : CommissionConfig) (tradeValue : ℚ) : ℚ :=
  match cc.ctype with
  | CommissionType.percentage => tradeValue * cc.rate
  | CommissionType.fixed => cc.rate

/-- The simulated broker (Go `backtester.Broker`). -/
structure Broker where
  commissionConfig : CommissionConfig
  slippage : ℚ
  maxSlippage : ℚ
deriving DecidableEq, Repr

/-- Fill-price computation of `Broker.ExecuteOrder` (the `switch` on the order
type).  `randomDraw` is the `rand.Float64()` sample used by
`calculateRandomizedSlippage`, so `totalSlippage = slippage + randomDraw *
maxSlippage`. -/
def fillPriceOf (b : Broker) (order : Order) (currentBar : BarData)
    (randomDraw : ℚ) : Except String ℚ :=
  let totalSlippage := b.slippage + randomDraw * b.maxSlippage
  match order.otype with
  | OrderType.market =>
      if order.side = OrderSide.buy then
        Except.ok (currentBar.close * (1 + totalSlippage / 100))
      else
        Except.ok (currentBar.close * (1 - totalSlippage / 100))
  | OrderType.limit =>
      if order.side = OrderSide.buy then
        if currentBar.low ≤ order.price then Except.ok order.price
        else Except.error "limit buy order not filled"
      else
        if currentBar.high ≥ order.price then Except.ok order.price
        else Except.error "limit sell order not filled"
  | OrderType.stop =>
      if order.side = OrderSide.buy then
        if currentBar.high ≥ order.stopPrice then
          Except.ok (order.stopPrice * (1 + totalSlippage / 100))
        else Except.error "stop buy order not triggered"
      else
        if currentBar.low ≤ order.stopPrice then
          Except.ok (order.stopPrice * (1 - totalSlippage / 100))
        else Except.error "stop sell order not triggered"

/-- `Broker.ExecuteOrder`: fill the order on the current bar or fail, then
attach commission, SEC fee (sells only, rate 0.0000278), FINRA TAF
(0.000145 per share capped at 7.27) and the recorded slippage cost. -/
def executeOrder (b : Broker) (order : Order) (currentBar : BarData)
    (randomDraw : ℚ) : Except String TradeEvent :=
  match fillPriceOf b order currentBar randomDraw with
  | Except.error e => Except.error e
  | Except.ok fillPrice =>
      let tradeValue := order.quantity * fillPrice
      let commission := calculateCommission b.commissionConfig tradeValue
      let expectedPrice :=
        if order.otype = OrderType.limit then order.price else currentBar.close
      let slippageCost := |fillPrice - expectedPrice| * order.quantity
      let secFee :=
        if order.side = OrderSide.sell then tradeValue * (278 / 10000000) else 0
      let finraTaf := min (order.quantity * (145 / 1000000)) (727 / 100)
      Except.ok
        { symbol := order.symbol
          side := order.side
          quantity := order.quantity
          price := fillPrice
          timestamp := currentBar.timestamp
          commission := commission
          secFee := secFee
          finraTaf := finraTaf
          slippage := slippageCost
          strategyName := order.strategyName
          reason := order.reason }

/-- `Broker.CanExecuteOrder`: the fill condition, without building a trade. -/
def canExecuteOrder (b : Broker) (order : Order) (currentBar : BarData) : Bool :=
  match order.otype with
  | OrderType.market => true
  | OrderType.limit =>
      if order.side = OrderSide.buy then decide (currentBar.low ≤ order.price)
      else decide (currentBar.high ≥ order.price)
  | OrderType.stop =>
      if order.side = OrderSide.buy then decide (currentBar.high ≥ order.stopPrice)
      else decide (currentBar.low ≤ order.stopPrice)

/-- Lookup in the positions map (Go `p.positions[symbol]`). -/
def lookupPos (positions : List (String × Position)) (symbol : String) :
    Option Position :=
  (positions.find? (fun e => e.1 == symbol)).map (fun e => e.2)

/-- Lookup in a bar map (Go `barData[symbol]`). -/
def lookupBar (barData : List (String × BarData)) (symbol : String) :
    Option BarData :=
  (barData.find? (fun e => e.1 == symbol)).map (fun e => e.2)

/-- Store a position under a symbol, replacing any existing entry (Go map
assignment `p.positions[symbol] = position`). -/
def setPos : List (String × Position) → String → Position →
    List (String × Position)
  | [], symbol, pos => [(symbol, pos)]
  | e :: rest, symbol, pos =>
      if e.1 = symbol then (symbol, pos) :: rest else e :: setPos rest symbol pos

/-- Delete a symbol from the positions map (Go `delete(p.positions, symbol)`). -/
def removePos (positions : List (String × Position)) (symbol : String) :
    List (String × Position) :=
  positions.filter (fun e => e.1 != symbol)

/-- The position/cash update at the heart of `Portfolio.ExecuteTrade`: the six
buy/sell × long/short/reversal branches.  Returns the updated position (before
the market-value write-back) and the new cash balance. -/
def tradeStep (p : Portfolio) (position : Position) (trade : TradeEvent) :
    Position × ℚ :=
  let tradeValue := trade.quantity * trade.price
  let totalFees := trade.commission + trade.secFee + trade.finraTaf + trade.slippage
  let totalCost := tradeValue + totalFees
  if trade.side = OrderSide.buy then
    if 0 ≤ position.quantity then
      let newQuantity := position.quantity + trade.quantity
      ({ position with
          avgPrice := (position.avgPrice * position.quantity +
            trade.price * trade.quantity) / newQuantity,
          quantity := newQuantity },
        p.cash - totalCost)
    else if |trade.quantity| ≤ |position.quantity| then
      let realizedPL := (position.avgPrice - trade.price) * trade.quantity
      let newQuantity := position.quantity + trade.quantity
      ({ position with
          realizedPL := position.realizedPL + realizedPL,
          quantity := newQuantity,
          avgPrice := if newQuantity = 0 then 0 else position.avgPrice },
        p.cash - totalCost)
    else
      let coverQuantity := |position.quantity|
      let realizedPL := (position.avgPrice - trade.price) * coverQuantity
      ({ position with
          realizedPL := position.realizedPL + realizedPL,
          quantity := trade.quantity - coverQuantity,
          avgPrice := trade.price },
        p.cash - totalCost)
  else
    if position.quantity ≤ 0 then
      let newQuantity := position.quantity - trade.quantity
      ({ position with
          avgPrice :=
            if position.quantity = 0 then trade.price
            else (position.avgPrice * |position.quantity| +
              trade.price * trade.quantity) / |newQuantity|,
          quantity := newQuantity },
        p.cash + tradeValue - totalFees)
    else if trade.quantity ≤ position.quantity then
      let realizedPL := (trade.price - position.avgPrice) * trade.quantity
      let newQuantity := position.quantity - trade.quantity
      ({ position with
          realizedPL := position.realizedPL + realizedPL,
          quantity := newQuantity,
          avgPrice := if newQuantity = 0 then 0 else position.avgPrice },
        p.cash + tradeValue - totalFees)
    else
      let sellQuantity := position.quantity
      let realizedPL := (trade.price - position.avgPrice) * sellQuantity
      let newShortQuantity := trade.quantity - sellQuantity
      ({ position with
          realizedPL := position.realizedPL + realizedPL,
          quantity := -newShortQuantity,
          avgPrice := trade.price },
        p.cash + tradeValue - totalFees)

/-- The whole body of `Portfolio.ExecuteTrade` (which always returns `nil`):
fetch or create the position, apply `tradeStep`, replay the (accumulating)
market-value write-back `position.MarketValue += quantity*currentPrice` and the
unrealized-P&L update, delete the position if its quantity netted to zero, and
append the trade to the history. -/
def applyTrade (p : Portfolio) (trade : TradeEvent) (currentPrice : ℚ) :
    Portfolio :=
  let position := (lookupPos p.positions trade.symbol).getD
    { symbol := trade.symbol, quantity := 0, avgPrice := 0,
      marketValue := 0, unrealizedPL := 0, realizedPL := 0 }
  let step := tradeStep p position trade
  let pos1 := step.1
  let cash1 := step.2
  let pos2 := { pos1 with
    marketValue := pos1.marketValue + pos1.quantity * currentPrice }
  let pos3 := { pos2 with unrealizedPL :=
      if 0 < pos2.quantity then (currentPrice - pos2.avgPrice) * pos2.quantity
      else if pos2.quantity < 0 then
        (pos2.avgPrice - currentPrice) * |pos2.quantity|
      else 0 }
  let positions1 :=
    if pos3.quantity = 0 then removePos p.positions trade.symbol
    else setPos p.positions trade.symbol pos3
  { p with cash := cash1, positions := positions1, trades := p.trades ++ [trade] }

/-- `Portfolio.ExecuteTrade`: the Go method returns an `error` that is `nil` on
every control path, so the embedding always returns `Except.ok`. -/
def executeTrade (p : Portfolio) (trade : TradeEvent) (currentPrice : ℚ) :
    Except String Portfolio :=
  Except.ok (applyTrade p trade currentPrice)

/-- One entry of the `UpdateMarketValues` loop: re-mark a position from its
bar's close if one is present, otherwise leave it untouched. -/
def markPosition (barData : List (String × BarData)) (entry : String × Position) :
    String × Position :=
  match lookupBar barData entry.1 with
  | some bar =>
      let pos := entry.2
      let upl :=
        if 0 < pos.quantity then (bar.close - pos.avgPrice) * pos.quantity
        else if pos.quantity < 0 then (pos.avgPrice - bar.close) * |pos.quantity|
        else pos.unrealizedPL
      (entry.1, { pos with
        marketValue := pos.quantity * bar.close, unrealizedPL := upl })
  | none => entry

/-- Sum of the stored market values over the positions map (the
`totalMarketValue` accumulator of `UpdateMarketValues`). -/
def positionsMarketValue (positions : List (String × Position)) : ℚ :=
  (positions.map (fun e => e.2.marketValue)).sum

/-- `Portfolio.UpdateMarketValues`: re-mark every position, recompute
`totalValue = cash + Σ marketValue`, and update peak value plus
current/maximum drawdown. -/
def updateMarketValues (p : Portfolio) (barData : List (String × BarData)) :
    Portfolio :=
  let updated := p.positions.map (markPosition barData)
  let totalValue := p.cash + positionsMarketValue updated
  if p.peakValue < totalValue then
    { p with
        positions := updated
        totalValue := totalValue
        peakValue := totalValue
        currentDrawdown := 0 }
  else
    let currentDrawdown := (p.peakValue - totalValue) / p.peakValue
    { p with
        positions := updated
        totalValue := totalValue
        currentDrawdown := currentDrawdown
        maxDrawdown :=
          if p.maxDrawdown < currentDrawdown then currentDrawdown
          else p.maxDrawdown }

/-- An open FIFO lot (Go `backtester.OpenPosition`); negative quantity means a
short lot. -/
structure OpenPosition where
  quantity : ℚ
  entryPrice : ℚ
  entryTime : Int
  commission : ℚ
deriving DecidableEq, Repr

/-- Per-symbol FIFO matcher state (Go `backtester.PositionTracker`). -/
structure PositionTracker where
  symbol : String
  openTrades : List OpenPosition
  totalPL : ℚ
  realizedPL : ℚ
  unrealizedPL : ℚ
deriving DecidableEq, Repr

/-- The `for len(pt.OpenTrades) > 0 && remainingToSell > 0` loop of
`PositionTracker.ProcessTrade` on the sell side.  Returns the surviving lots
and the realized-P&L samples in emission order.  `tradeQuantity` is the whole
sell's quantity, used to pro-rate the exit commission. -/
def sellLoop (exitPrice exitCommission tradeQuantity : ℚ) :
    List OpenPosition → ℚ → List OpenPosition × List ℚ × ℚ
  | [], remainingToSell => ([], [], remainingToSell)
  | lot :: rest, remainingToSell =>
      if remainingToSell ≤ 0 then (lot :: rest, [], remainingToSell)
      else if lot.quantity ≤ remainingToSell then
        let quantityClosed := lot.quantity
        let grossPL := (exitPrice - lot.entryPrice) * quantityClosed
        let totalCommission :=
          lot.commission + exitCommission * quantityClosed / tradeQuantity
        let netPL := grossPL - totalCommission
        let next := sellLoop exitPrice exitCommission tradeQuantity rest
          (remainingToSell - quantityClosed)
        (next.1, netPL :: next.2.1, next.2.2)
      else
        let quantityClosed := remainingToSell
        let grossPL := (exitPrice - lot.entryPrice) * quantityClosed
        let totalCommission :=
          lot.commission * (quantityClosed / lot.quantity) +
            exitCommission * quantityClosed / tradeQuantity
        let netPL := grossPL - totalCommission
        let reducedQuantity := lot.quantity - quantityClosed
        let newLot := { lot with
          quantity := reducedQuantity
          commission := lot.commission -
            lot.commission * (quantityClosed / (reducedQuantity + quantityClosed)) }
        (newLot :: rest, [netPL], 0)

/-- `PositionTracker.ProcessTrade`: a buy appends a long lot; a sell closes
long lots FIFO and appends a short lot for any unmatched remainder.  Returns
the updated tracker and the realized-P&L samples. -/
def processTrade (pt : PositionTracker) (trade : TradeEvent) :
    PositionTracker × List ℚ :=
  if trade.side = OrderSide.buy then
    let openPos : OpenPosition :=
      { quantity := trade.quantity
        entryPrice := trade.price
        entryTime := trade.timestamp
        commission := trade.commission }
    ({ pt with openTrades := pt.openTrades ++ [openPos] }, [])
  else
    let res := sellLoop trade.price trade.commission trade.quantity
      pt.openTrades trade.quantity
    let closedLots := res.1
    let realizedPLs := res.2.1
    let remainingToSell := res.2.2
    let lots1 :=
      if 0 < remainingToSell then
        closedLots ++
          [{ quantity := -remainingToSell
             entryPrice := trade.price
             entryTime := trade.timestamp
             commission := trade.commission * remainingToSell / trade.quantity }]
      else closedLots
    ({ pt with
        openTrades := lots1
        realizedPL := pt.realizedPL + realizedPLs.sum }, realizedPLs)

/-- The per-tick return series `CalculateMetrics` derives from the equity
curve: `(v[i] - v[i-1]) / v[i-1]` when `v[i-1] > 0`, else the zero the Go code
leaves in the slice. -/
def equityReturns : List ℚ → List ℚ
  | a :: b :: rest =>
      (if 0 < a then (b - a) / a else 0) :: equityReturns (b :: rest)
  | _ => []

/-- Go `calculateSharpeRatio` (the name is kept up to casing of the suffix):
mean of the returns divided by the quantity the code calls `stdDev`, which is
`Σ (r - mean)² / (n - 1)` with no square root applied. -/
def calculateSharpe (returns : List ℚ) : ℚ :=
  if returns.length = 0 then 0
  else
    let mean := returns.sum / (returns.length : ℚ)
    let sumSquares := (returns.map (fun r => (r - mean) * (r - mean))).sum
    if returns.length ≤ 1 then 0
    else
      let stdDev := sumSquares / ((returns.length : ℚ) - 1)
      if stdDev ≤ 0 then 0 else mean / stdDev

/-- Modelled from the spec: the arithmetic mean of a return series, used to
state what the claim says the Sharpe ratio should be. -/
def sampleMean (returns : List ℚ) : ℚ :=
  returns.sum / (returns.length : ℚ)

/-- Modelled from the spec: the `(n-1)`-denominator sample variance of a
return series; the claim's Sharpe ratio is the mean over its square root. -/
def sampleVariance (returns : List ℚ) : ℚ :=
  (returns.map (fun r => (r - sampleMean returns) *
    (r - sampleMean returns))).sum / ((returns.length : ℚ) - 1)

/-- A trading signal as seen by the capital allocator (the data behind the Go
`strategy.TradingSignal` interface). -/
structure TradingSignal where
  symbol : String
  price : ℚ
  confidence : ℚ
  priority : ℚ
  signalType : String
deriving DecidableEq, Repr

/-- Allocator configuration (Go `strategy.AllocationConfig`); the volatility
callback is the optional `VolatilityCallback` function. -/
structure AllocationConfig where
  maxPositions : Int
  positionSize : ℚ
  minCashBuffer : ℚ
  slippageBuffer : ℚ
  allowFractional : Bool
  volatilityAdjust : Bool
  volatilityCallback : Option (String → ℚ)

/-- The four allocation policies (Go `strategy.AllocationMethod`). -/
inductive AllocationMethod where
  | equal
  | confidence
  | priority
  | sequential
deriving DecidableEq, Repr

/-- Go `CapitalAllocator.getVolatilityAdjustment`. -/
def getVolatilityAdjustment (volatility : ℚ) : ℚ :=
  if 3 / 100 < volatility then 7 / 10
  else if 2 / 100 < volatility then 85 / 100
  else 1

/-- Go `CapitalAllocator.calculatePositionSize`: allocation divided by price,
optionally scaled down for volatility, floored unless fractional shares are
allowed, clamped at zero. -/
def calculatePositionSize (cfg : AllocationConfig) (signal : TradingSignal)
    (allocation : ℚ) : ℚ :=
  if allocation ≤ 0 ∨ signal.price ≤ 0 then 0
  else
    let quantity := allocation / signal.price
    let quantity :=
      match cfg.volatilityCallback with
      | some vol =>
          if cfg.volatilityAdjust then
            quantity * getVolatilityAdjustment (vol signal.symbol)
          else quantity
      | none => quantity
    let quantity :=
      if cfg.allowFractional then quantity else ((Int.floor quantity : Int) : ℚ)
    max 0 quantity

/-- The market buy order every allocator branch emits for a signal. -/
def mkOrder (signal : TradingSignal) (quantity : ℚ) (strategyName : String) :
    Order :=
  { symbol := signal.symbol
    side := OrderSide.buy
    otype := OrderType.market
    quantity := quantity
    price := 0
    stopPrice := 0
    strategyName := strategyName
    reason := signal.signalType }

/-- Go `CapitalAllocator.allocateEqually`: one fixed slice of
`tradableCash × positionSize` per signal, dropping non-positive quantities. -/
def allocateEqually (cfg : AllocationConfig) (signals : List TradingSignal)
    (tradableCash : ℚ) (strategyName : String) : List Order :=
  let allocationPerSignal :=
    tradableCash * cfg.positionSize / (signals.length : ℚ)
  signals.filterMap (fun signal =>
    let quantity := calculatePositionSize cfg signal allocationPerSignal
    if 0 < quantity then some (mkOrder signal quantity strategyName) else none)

/-- The loop of `allocateByConfidence`: break when the running cash falls to
the buffer, give the last signal whatever remains, cap the others'
proportional share by the remaining cash, and only emit an order whose cost
fits the remaining cash. -/
def confidenceLoop (cfg : AllocationConfig) (tradableCash totalConfidence : ℚ)
    (strategyName : String) :
    List TradingSignal → ℚ → List Order
  | [], _ => []
  | signal :: rest, remainingCash =>
      if remainingCash ≤ cfg.minCashBuffer then []
      else
        let allocation :=
          if rest.isEmpty then remainingCash
          else
            min (tradableCash * cfg.positionSize *
              (signal.confidence / totalConfidence)) remainingCash
        let quantity := calculatePositionSize cfg signal allocation
        if 0 < quantity then
          let cost := quantity * signal.price
          if cost ≤ remainingCash then
            mkOrder signal quantity strategyName ::
              confidenceLoop cfg tradableCash totalConfidence strategyName rest
                (remainingCash - cost)
          else
            confidenceLoop cfg tradableCash totalConfidence strategyName rest
              remainingCash
        else
          confidenceLoop cfg tradableCash totalConfidence strategyName rest
            remainingCash

/-- Go `CapitalAllocator.allocateByConfidence`; a zero confidence total falls
back to the equal allocator. -/
def allocateByConfidence (cfg : AllocationConfig) (signals : List TradingSignal)
    (tradableCash : ℚ) (strategyName : String) : List Order :=
  let totalConfidence := (signals.map TradingSignal.confidence).sum
  if totalConfidence = 0 then
    allocateEqually cfg signals tradableCash strategyName
  else
    confidenceLoop cfg tradableCash totalConfidence strategyName signals
      (tradableCash * cfg.positionSize)

/-- The loop of `allocateByPriority`, identical to the confidence loop with
the priority as the weighting key. -/
def priorityLoop (cfg : AllocationConfig) (tradableCash totalPriority : ℚ)
    (strategyName : String) :
    List TradingSignal → ℚ → List Order
  | [], _ => []
  | signal :: rest, remainingCash =>
      if remainingCash ≤ cfg.minCashBuffer then []
      else
        let allocation :=
          if rest.isEmpty then remainingCash
          else
            min (tradableCash * cfg.positionSize *
              (signal.priority / totalPriority)) remainingCash
        let quantity := calculatePositionSize cfg signal allocation
        if 0 < quantity then
          let cost := quantity * signal.price
          if cost ≤ remainingCash then
            mkOrder signal quantity strategyName ::
              priorityLoop cfg tradableCash totalPriority strategyName rest
                (remainingCash - cost)
          else
            priorityLoop cfg tradableCash totalPriority strategyName rest
              remainingCash
        else
          priorityLoop cfg tradableCash totalPriority strategyName rest
            remainingCash

/-- Go `CapitalAllocator.allocateByPriority`; a zero priority total falls back
to the equal allocator. -/
def allocateByPriority (cfg : AllocationConfig) (signals : List TradingSignal)
    (tradableCash : ℚ) (strategyName : String) : List Order :=
  let totalPriority := (signals.map TradingSignal.priority).sum
  if totalPriority = 0 then
    allocateEqually cfg signals tradableCash strategyName
  else
    priorityLoop cfg tradableCash totalPriority strategyName signals
      (tradableCash * cfg.positionSize)

/-- The loop of `allocateSequential`: each signal may take
`min(positionSize, remainingCash / tradableCash)` of the remaining cash, and
the walk stops once the remaining cash falls to the buffer. -/
def sequentialLoop (cfg : AllocationConfig) (tradableCash : ℚ)
    (strategyName : String) :
    List TradingSignal → ℚ → List Order
  | [], _ => []
  | signal :: rest, remainingCash =>
      if remainingCash ≤ cfg.minCashBuffer then []
      else
        let allocation := min cfg.positionSize (remainingCash / tradableCash)
        let quantity :=
          calculatePositionSize cfg signal (remainingCash * allocation)
        if 0 < quantity then
          let cost := quantity * signal.price
          if cost ≤ remainingCash then
            mkOrder signal quantity strategyName ::
              sequentialLoop cfg tradableCash strategyName rest
                (remainingCash - cost)
          else
            sequentialLoop cfg tradableCash strategyName rest remainingCash
        else
          sequentialLoop cfg tradableCash strategyName rest remainingCash

/-- Go `CapitalAllocator.allocateSequential`. -/
def allocateSequential (cfg : AllocationConfig) (signals : List TradingSignal)
    (tradableCash : ℚ) (strategyName : String) : List Order :=
  sequentialLoop cfg tradableCash strategyName signals tradableCash

/-- Go `CapitalAllocator.allocateByMethod`; the `default` branch coincides
with the sequential policy. -/
def allocateByMethod (cfg : AllocationConfig) (method : AllocationMethod)
    (signals : List TradingSignal) (tradableCash : ℚ) (strategyName : String) :
    List Order :=
  match method with
  | AllocationMethod.equal =>
      allocateEqually cfg signals tradableCash strategyName
  | AllocationMethod.confidence =>
      allocateByConfidence cfg signals tradableCash strategyName
  | AllocationMethod.priority =>
      allocateByPriority cfg signals tradableCash strategyName
  | AllocationMethod.sequential =>
      allocateSequential cfg signals tradableCash strategyName

/-- Total cost of a batch of emitted orders, pricing each order by its
symbol's signal price. -/
def ordersCost (priceOf : String → ℚ) (orders : List Order) : ℚ :=
  (orders.map (fun o => o.quantity * priceOf o.symbol)).sum

/-! Concrete inputs used by counterexamples and witnesses. -/

/-- A fresh portfolio with $1000 of cash and no positions. -/
def c1Portfolio : Portfolio :=
  { cash := 1000, initialCash := 1000, positions := [], trades := []
    totalValue := 1000, maxDrawdown := 0, currentDrawdown := 0, peakValue := 1000 }

/-- Buy 1 share of "A" at $100 with a $10 commission and no other fees. -/
def c1Trade : TradeEvent :=
  { symbol := "A", side := OrderSide.buy, quantity := 1, price := 100
    timestamp := 1, commission := 10, secFee := 0, finraTaf := 0, slippage := 0
    strategyName := "s", reason := "entry" }

/-- The portfolio immediately after `ExecuteTrade` on the trade above, marked
at $100. -/
def c1After : Portfolio := applyTrade c1Portfolio c1Trade 100

/-- A tracker whose FIFO queue holds one short lot of 5 units entered at $100. -/
def c2Tracker : PositionTracker :=
  { symbol := "A", openTrades := [⟨-5, 100, 0, 0⟩]
    totalPL := 0, realizedPL := 0, unrealizedPL := 0 }

/-- Buy 5 shares of "A" at $90 with no fees. -/
def c2BuyTrade : TradeEvent :=
  { symbol := "A", side := OrderSide.buy, quantity := 5, price := 90
    timestamp := 1, commission := 0, secFee := 0, finraTaf := 0, slippage := 0
    strategyName := "s", reason := "cover" }

/-- The matcher's output on the buy above against the short-lot queue. -/
def c2Result : PositionTracker × List ℚ := processTrade c2Tracker c2BuyTrade

/-- An empty tracker for the C6 scenario. -/
def c6Tracker : PositionTracker :=
  { symbol := "A", openTrades := [], totalPL := 0, realizedPL := 0, unrealizedPL := 0 }

/-- Buy 10 @ $100 at time 1, no commission. -/
def c6T1 : TradeEvent :=
  { symbol := "A", side := OrderSide.buy, quantity := 10, price := 100
    timestamp := 1, commission := 0, secFee := 0, finraTaf := 0, slippage := 0
    strategyName := "s", reason := "b1" }

/-- Buy 10 @ $110 at time 2, no commission. -/
def c6T2 : TradeEvent :=
  { symbol := "A", side := OrderSide.buy, quantity := 10, price := 110
    timestamp := 2, commission := 0, secFee := 0, finraTaf := 0, slippage := 0
    strategyName := "s", reason := "b2" }

/-- Sell 15 @ $120 at time 3, no commission. -/
def c6T3 : TradeEvent :=
  { symbol := "A", side := OrderSide.sell, quantity := 15, price := 120
    timestamp := 3, commission := 0, secFee := 0, finraTaf := 0, slippage := 0
    strategyName := "s", reason := "exit" }

/-- The matcher state and samples after the fixed C6 trade sequence. -/
def c6Final : PositionTracker × List ℚ :=
  processTrade (processTrade (processTrade c6Tracker c6T1).1 c6T2).1 c6T3

/-- A ledger position that is long 10 units of "A" at average price $100. -/
def c4Position : Position :=
  { symbol := "A", quantity := 10, avgPrice := 100
    marketValue := 0, unrealizedPL := 0, realizedPL := 0 }

/-- A portfolio holding only the long-10-at-$100 position. -/
def c4Portfolio : Portfolio :=
  { cash := 0, initialCash := 0, positions := [("A", c4Position)], trades := []
    totalValue := 0, maxDrawdown := 0, currentDrawdown := 0, peakValue := 0 }

/-- Sell 15 shares of "A" at $120 with no fees. -/
def c4Trade : TradeEvent :=
  { symbol := "A", side := OrderSide.sell, quantity := 15, price := 120
    timestamp := 1, commission := 0, secFee := 0, finraTaf := 0, slippage := 0
    strategyName := "s", reason := "exit" }

/-- A portfolio holding a long position of 3 units of "A". -/
def c8Portfolio : Portfolio :=
  { cash := 1000, initialCash := 1000
    positions := [("A",
      { symbol := "A", quantity := 3, avgPrice := 10
        marketValue := 30
        unrealizedPL := 0
        realizedPL := 0 })]
    trades := [], totalValue := 1000, maxDrawdown := 0, currentDrawdown := 0
    peakValue := 1000 }

/-- Sell exactly the 3 held shares of "A" at $12, netting the position to 0. -/
def c8Trade : TradeEvent :=
  { symbol := "A", side := OrderSide.sell, quantity := 3, price := 12
    timestamp := 1, commission := 0, secFee := 0, finraTaf := 0, slippage := 0
    strategyName := "s", reason := "flat" }

/-- The zero-quantity row the sale above would have produced had `ExecuteTrade`
retained it: quantity netted to 0, $6 realized, stale market value. -/
def c8ZeroPos : Position :=
  { symbol := "A", quantity := 0, avgPrice := 0
    marketValue := 30, unrealizedPL := 0, realizedPL := 6 }

/-- A zero-friction broker. -/
def c9Broker : Broker :=
  { commissionConfig := { ctype := CommissionType.percentage, rate := 0 }
    slippage := 0, maxSlippage := 0 }

/-- A limit buy of 1 share of "A" at $50. -/
def c9Order : Order :=
  { symbol := "A", side := OrderSide.buy, otype := OrderType.limit
    quantity := 1, price := 50, stopPrice := 0, strategyName := "s", reason := "r" }

/-- A bar whose low (40) is under the $50 limit, so the limit buy fills. -/
def c9Bar : BarData :=
  { symbol := "A", timestamp := 1, openPrice := 45, high := 55, low := 40
    close := 48, volume := 100 }

/-- Signals and configuration for the allocator witness. -/
def c5Config : AllocationConfig :=
  { maxPositions := 3, positionSize := 95/100, minCashBuffer := 100
    slippageBuffer := 2/100, allowFractional := false
    volatilityAdjust := false, volatilityCallback := none }

/-- Two competing buy signals, both priced at $10. -/
def c5Signals : List TradingSignal :=
  [{ symbol := "A", price := 10, confidence := 9/10, priority := 1, signalType := "t1" },
   { symbol := "B", price := 10, confidence := 6/10, priority := 2, signalType := "t2" }]

/-- The signal price per symbol of the witness batch. -/
def c5PriceOf : String → ℚ := fun _ => 10

end JonBuh

namespace JonBuh

/-! Helper lemmas shared between claims. -/

theorem orderSide_sell_ne_buy : ¬ (OrderSide.sell = OrderSide.buy) :=
  fun h => OrderSide.noConfusion h

theorem orderSide_buy_ne_sell : ¬ (OrderSide.buy = OrderSide.sell) :=
  fun h => OrderSide.noConfusion h

theorem mem_removePos {positions : List (String × Position)} {symbol : String}
    {e : String × Position} (h : e ∈ removePos positions symbol) :
    e ∈ positions :=
  (List.mem_filter.mp h).1

theorem mem_setPos {positions : List (String × Position)} {symbol : String}
    {pos : Position} {e : String × Position}
    (h : e ∈ setPos positions symbol pos) :
    e = (symbol, pos) ∨ e ∈ positions := by
  induction positions with
  | nil =>
      simp only [setPos, List.mem_singleton] at h
      exact Or.inl h
  | cons hd tl ih =>
      simp only [setPos] at h
      split_ifs at h with hk
      · rcases List.mem_cons.mp h with h1 | h2
        · exact Or.inl h1
        · exact Or.inr (List.mem_cons_of_mem _ h2)
      · rcases List.mem_cons.mp h with h1 | h2
        · exact Or.inr (h1 ▸ List.mem_cons_self _ _)
        · rcases ih h2 with h3 | h4
          · exact Or.inl h3
          · exact Or.inr (List.mem_cons_of_mem _ h4)

theorem lookupPos_setPos (positions : List (String × Position))
    (symbol : String) (pos : Position) :
    lookupPos (setPos positions symbol pos) symbol = some pos := by
  induction positions with
  | nil => simp [setPos, lookupPos, List.find?]
  | cons hd tl ih =>
      by_cases hk : hd.1 = symbol
      · simp [setPos, hk, lookupPos, List.find?]
      · simp only [setPos, if_neg hk]
        simp only [lookupPos, List.find?] at ih ⊢
        rw [show (hd.1 == symbol) = false from beq_eq_false_iff_ne.mpr hk]
        exact ih

/-! ### C1 — cash conservation after `ExecuteTrade` -/

/-- C1 counterexample: after buying 1 share at $100 with a $10 commission from
a fresh $1000 portfolio, `cash + Σ position.markValue = 990` while
`totalValue` is still `1000` (it is only recomputed by `UpdateMarketValues`),
so the claimed identity fails right after `ExecuteTrade` by a whole $10, far
beyond floating-point tolerance. -/
theorem c1_executeTrade_breaks_cash_conservation :
    c1After.cash + positionsMarketValue c1After.positions = 990 ∧
    c1After.totalValue = 1000 ∧
    c1After.cash + positionsMarketValue c1After.positions ≠ c1After.totalValue := by
  norm_num [c1After, c1Portfolio, c1Trade, applyTrade, tradeStep, lookupPos,
    setPos, removePos, positionsMarketValue, List.find?, Option.getD,
    orderSide_buy_ne_sell, orderSide_sell_ne_buy]

/-- C1 amended: the conservation identity holds at every mark-to-market point:
after `ExecuteTrade`, the next `UpdateMarketValues` call restores
`cash + Σ position.markValue = totalValue` exactly, for any trade, mark price
and bar set. -/
theorem c1_cash_conservation_at_mark_to_market (p : Portfolio)
    (trade : TradeEvent) (currentPrice : ℚ)
    (barData : List (String × BarData)) :
    (updateMarketValues (applyTrade p trade currentPrice) barData).cash +
      positionsMarketValue
        (updateMarketValues (applyTrade p trade currentPrice) barData).positions =
    (updateMarketValues (applyTrade p trade currentPrice) barData).totalValue := by
  generalize applyTrade p trade currentPrice = q
  simp only [updateMarketValues]
  split_ifs <;> rfl

/-! ### C2 — FIFO matcher: buys against short lots -/

/-- C2 counterexample: with one open short lot of 5 @ $100, a buy of 5 @ $90
emits no realized-P&L sample at all and leaves both the untouched short lot
and a brand-new long lot in the queue — the matcher never covers short lots on
the buy side. -/
theorem c2_buy_ignores_short_lots :
    c2Result.2 = [] ∧
    c2Result.1.openTrades = [⟨-5, 100, 0, 0⟩, ⟨5, 90, 1, 0⟩] := by
  norm_num [c2Result, c2Tracker, c2BuyTrade, processTrade, orderSide_buy_ne_sell]

/-- C2 amended: a Buy trade never matches existing short lots; it
unconditionally appends one new long lot carrying the trade's full quantity,
price, timestamp and commission, and returns no realized-P&L samples.  FIFO
matching with pro-rata commission happens only on the sell side. -/
theorem c2_buy_always_appends_lot (pt : PositionTracker) (trade : TradeEvent)
    (h : trade.side = OrderSide.buy) :
    processTrade pt trade =
      ({ pt with openTrades := pt.openTrades ++
          [{ quantity := trade.quantity, entryPrice := trade.price,
             entryTime := trade.timestamp, commission := trade.commission }] },
        []) := by
  simp [processTrade, h]

/-- C2 witness: the amended statement applied to the concrete short-lot
tracker of the counterexample. -/
theorem c2_buy_always_appends_lot_witness :
    c2BuyTrade.side = OrderSide.buy ∧
    processTrade c2Tracker c2BuyTrade =
      ({ c2Tracker with openTrades := c2Tracker.openTrades ++
          [{ quantity := c2BuyTrade.quantity, entryPrice := c2BuyTrade.price,
             entryTime := c2BuyTrade.timestamp,
             commission := c2BuyTrade.commission }] }, []) :=
  ⟨rfl, c2_buy_always_appends_lot c2Tracker c2BuyTrade rfl⟩

/-! ### C3 — Sharpe ratio -/

/-- C3: on the equity curve `[100, 110, 143]` the per-tick returns are
`[0.1, 0.3]`; the code returns `mean / (Σ(r-mean)²/(n-1)) = 10`, dividing by
the sample variance itself instead of its square root.  Were the result
`mean / stdev` as the claim states, the implied deviation `mean / result`
would square back to the sample variance — it does not (`1/2500 ≠ 1/50`). -/
theorem c3_sharpe_divides_by_variance :
    equityReturns [100, 110, 143] = [1/10, 3/10] ∧
    sampleMean [1/10, 3/10] = 1/5 ∧
    sampleVariance [1/10, 3/10] = 1/50 ∧
    calculateSharpe [1/10, 3/10] = 10 ∧
    (sampleMean [1/10, 3/10] / calculateSharpe [1/10, 3/10]) *
        (sampleMean [1/10, 3/10] / calculateSharpe [1/10, 3/10]) ≠
      sampleVariance [1/10, 3/10] := by
  norm_num [equityReturns, sampleMean, sampleVariance, calculateSharpe]

/-! ### C6 — FIFO determinism scenario -/

/-- C6: from an empty tracker, Buy 10@100, Buy 10@110, Sell 15@120 (no
commission) realizes exactly the two samples `[200, 50]` — total 250 — and
leaves a single open long lot of 5 units entered at $110. -/
theorem c6_fifo_scenario :
    c6Final.2 = [200, 50] ∧
    c6Final.2.length = 2 ∧
    c6Final.2.sum = 250 ∧
    c6Final.1.openTrades = [⟨5, 110, 2, 0⟩] := by
  norm_num [c6Final, c6Tracker, c6T1, c6T2, c6T3, processTrade, sellLoop,
    orderSide_buy_ne_sell, orderSide_sell_ne_buy]

/-! ### C7 — drawdown monotonicity -/

/-- C7: across any sequence of `UpdateMarketValues` calls the maximum
drawdown never decreases: it is monotone along `List.foldl
updateMarketValues`. -/
theorem c7_maxDrawdown_monotone (p : Portfolio)
    (barsList : List (List (String × BarData))) :
    p.maxDrawdown ≤ (barsList.foldl updateMarketValues p).maxDrawdown := by
  have hstep : ∀ (q : Portfolio) (bars : List (String × BarData)),
      q.maxDrawdown ≤ (updateMarketValues q bars).maxDrawdown := by
    intro q bars
    simp only [updateMarketValues]
    split_ifs with h1 h2
    · exact le_refl _
    · exact le_of_lt h2
    · exact le_refl _
  induction barsList generalizing p with
  | nil => exact le_refl _
  | cons bars rest ih =>
      exact le_trans (hstep p bars) (ih (updateMarketValues p bars))

/-! ### C10 — `ExecuteTrade` never fails and its exact cash delta -/

/-- C10: `ExecuteTrade` always returns `ok` (there is no affordability check),
and the cash balance moves by exactly `±(quantity×fillPrice) ∓ (commission +
SEC fee + FINRA TAF + recorded slippage cost)`: on a buy the slippage cost is
deducted as a fee on top of the fill price, and nothing stops cash from going
negative. -/
theorem c10_executeTrade_always_ok_cash_delta (p : Portfolio)
    (trade : TradeEvent) (currentPrice : ℚ) :
    ∃ q, executeTrade p trade currentPrice = Except.ok q ∧
      q.cash =
        (if trade.side = OrderSide.buy then
          p.cash - (trade.quantity * trade.price +
            (trade.commission + trade.secFee + trade.finraTaf + trade.slippage))
        else
          p.cash + (trade.quantity * trade.price -
            (trade.commission + trade.secFee + trade.finraTaf + trade.slippage))) := by
  refine ⟨applyTrade p trade currentPrice, rfl, ?_⟩
  cases hside : trade.side <;>
    simp only [applyTrade, tradeStep, hside, reduceCtorEq, if_true, if_false] <;>
    split_ifs <;> ring

/-! ### C8 — no zero-quantity position survives `ExecuteTrade` -/

/-- C8: if no position in the map has quantity zero, then after any
`ExecuteTrade` still no position has quantity zero: the traded symbol is
deleted from the map the moment its quantity nets to exactly 0, and no other
entry is touched. -/
theorem c8_no_zero_quantity_position (p p' : Portfolio) (trade : TradeEvent)
    (currentPrice : ℚ)
    (hp : ∀ e ∈ p.positions, e.2.quantity ≠ 0)
    (h : executeTrade p trade currentPrice = Except.ok p') :
    ∀ e ∈ p'.positions, e.2.quantity ≠ 0 := by
  have hpq : p' = applyTrade p trade currentPrice := by
    simpa [executeTrade] using h.symm
  subst hpq
  intro e he
  simp only [applyTrade] at he
  split at he
  · exact hp e (mem_removePos he)
  · next hq =>
      rcases mem_setPos he with heq | hmem
      · subst heq
        simpa using hq
      · exact hp e hmem

/-- C8 witness: selling the whole 3-share position nets it to zero; the
invariant applied at this input shows the would-be zero row is absent from the
resulting positions map (the position was deleted). -/
theorem c8_no_zero_quantity_position_witness :
    ("A", c8ZeroPos) ∉ (applyTrade c8Portfolio c8Trade 12).positions :=
  fun h =>
    c8_no_zero_quantity_position c8Portfolio (applyTrade c8Portfolio c8Trade 12)
      c8Trade 12 (by norm_num [c8Portfolio]) rfl ("A", c8ZeroPos) h rfl

/-! ### C4 — sell-beyond-long reversal -/

/-- C4: a sell of more than the long quantity realizes
`(fillPrice − avgPrice) × longQty` and flips the position into a short of the
excess at the fill price. -/
theorem c4_sell_reversal (p p' : Portfolio) (trade : TradeEvent)
    (currentPrice : ℚ) (pos : Position)
    (hlook : lookupPos p.positions trade.symbol = some pos)
    (hside : trade.side = OrderSide.sell)
    (hlong : 0 < pos.quantity)
    (hover : pos.quantity < trade.quantity)
    (h : executeTrade p trade currentPrice = Except.ok p') :
    ∃ pos', lookupPos p'.positions trade.symbol = some pos' ∧
      pos'.realizedPL = pos.realizedPL +
        (trade.price - pos.avgPrice) * pos.quantity ∧
      pos'.quantity = -(trade.quantity - pos.quantity) ∧
      pos'.avgPrice = trade.price := by
  have hpq : p' = applyTrade p trade currentPrice := by
    simpa [executeTrade] using h.symm
  subst hpq
  have h2 : ¬ (pos.quantity ≤ 0) := not_le.mpr hlong
  have h3 : ¬ (trade.quantity ≤ pos.quantity) := not_le.mpr hover
  have h4 : ¬ (-(trade.quantity - pos.quantity) = 0) :=
    neg_ne_zero.mpr (sub_ne_zero.mpr (ne_of_gt hover))
  simp only [applyTrade, tradeStep, hlook, Option.getD_some, hside,
    orderSide_sell_ne_buy, if_false, h2, h3, ite_false, h4]
  exact ⟨_, lookupPos_setPos _ _ _, by simp, by simp, by simp⟩

/-- C4 witness: long 10 @ $100, sell 15 @ $120 with no fees realizes exactly
200 and leaves a short of 5 units at average price $120. -/
theorem c4_sell_reversal_witness :
    ∃ pos', lookupPos (applyTrade c4Portfolio c4Trade 120).positions "A" =
        some pos' ∧
      pos'.realizedPL = 200 ∧ pos'.quantity = -5 ∧ pos'.avgPrice = 120 := by
  have h := c4_sell_reversal c4Portfolio (applyTrade c4Portfolio c4Trade 120)
    c4Trade 120 c4Position rfl rfl
    (by norm_num [c4Position]) (by norm_num [c4Position, c4Trade]) rfl
  obtain ⟨pos', h1, h2, h3, h4⟩ := h
  refine ⟨pos', ?_, ?_, ?_, ?_⟩
  · simpa [c4Trade] using h1
  · rw [h2]; norm_num [c4Position, c4Trade]
  · rw [h3]; norm_num [c4Position, c4Trade]
  · rw [h4]; norm_num [c4Trade]

/-! ### C9 — limit-order fill condition -/

/-- C9: for a limit order, `ExecuteOrder` returns a trade filled exactly at
the limit price if and only if the fill condition holds (buy: `bar.low ≤
limit`; sell: `limit ≤ bar.high`), returns a not-filled error exactly when it
fails, and `CanExecuteOrder` decides the same condition. -/
theorem c9_limit_order_fill (b : Broker) (o : Order) (bar : BarData) (rd : ℚ)
    (h : o.otype = OrderType.limit) :
    ((∃ t, executeOrder b o bar rd = Except.ok t ∧ t.price = o.price) ↔
      (if o.side = OrderSide.buy then bar.low ≤ o.price
        else o.price ≤ bar.high)) ∧
    ((∃ e, executeOrder b o bar rd = Except.error e) ↔
      ¬ (if o.side = OrderSide.buy then bar.low ≤ o.price
        else o.price ≤ bar.high)) ∧
    (canExecuteOrder b o bar = true ↔
      (if o.side = OrderSide.buy then bar.low ≤ o.price
        else o.price ≤ bar.high)) := by
  cases hside : o.side
  · by_cases hc : bar.low ≤ o.price <;>
      simp [executeOrder, fillPriceOf, canExecuteOrder, h, hside, hc]
  · by_cases hc : o.price ≤ bar.high <;>
      simp [executeOrder, fillPriceOf, canExecuteOrder, h, hside, hc,
        ge_iff_le, orderSide_sell_ne_buy]

/-! ### C5 — allocator cash bound -/

theorem ordersCost_nil (priceOf : String → ℚ) : ordersCost priceOf [] = 0 := rfl

theorem ordersCost_cons (priceOf : String → ℚ) (o : Order) (os : List Order) :
    ordersCost priceOf (o :: os) =
      o.quantity * priceOf o.symbol + ordersCost priceOf os := by
  simp [ordersCost]

theorem mkOrder_quantity (signal : TradingSignal) (q : ℚ) (sn : String) :
    (mkOrder signal q sn).quantity = q := rfl

theorem mkOrder_symbol (signal : TradingSignal) (q : ℚ) (sn : String) :
    (mkOrder signal q sn).symbol = signal.symbol := rfl

theorem getVolatilityAdjustment_nonneg (v : ℚ) :
    0 ≤ getVolatilityAdjustment v := by
  simp only [getVolatilityAdjustment]
  split_ifs <;> norm_num

theorem getVolatilityAdjustment_le_one (v : ℚ) :
    getVolatilityAdjustment v ≤ 1 := by
  simp only [getVolatilityAdjustment]
  split_ifs <;> norm_num

theorem alloc_cost_aux (price allocation q : ℚ) (hp : 0 < price)
    (hq : q ≤ allocation / price) :
    max 0 q * price ≤ max allocation 0 := by
  rcases le_or_lt 0 allocation with ha | ha
  · have h1 : max 0 q ≤ allocation / price :=
      max_le (div_nonneg ha hp.le) hq
    have h2 : max 0 q * price ≤ allocation / price * price :=
      mul_le_mul_of_nonneg_right h1 hp.le
    rw [div_mul_cancel₀ _ hp.ne'] at h2
    exact le_trans h2 (le_max_left _ _)
  · have hdp : allocation / price < 0 := div_neg_of_neg_of_pos ha hp
    have hq0 : q < 0 := lt_of_le_of_lt hq hdp
    rw [max_eq_left hq0.le, zero_mul]
    exact le_max_right _ _

theorem calculatePositionSize_nonneg (cfg : AllocationConfig)
    (signal : TradingSignal) (allocation : ℚ) :
    0 ≤ calculatePositionSize cfg signal allocation := by
  simp only [calculatePositionSize]
  split_ifs <;> first | exact le_refl 0 | exact le_max_left 0 _

theorem calculatePositionSize_cost_le (cfg : AllocationConfig)
    (signal : TradingSignal) (allocation : ℚ) :
    calculatePositionSize cfg signal allocation * signal.price ≤
      max allocation 0 := by
  simp only [calculatePositionSize]
  by_cases h : allocation ≤ 0 ∨ signal.price ≤ 0
  · rw [if_pos h, zero_mul]
    exact le_max_right _ _
  · rw [if_neg h]
    push_neg at h
    obtain ⟨ha, hp⟩ := h
    have hbase : 0 ≤ allocation / signal.price := div_nonneg ha.le hp.le
    have hfloor : ∀ m : ℚ, m ≤ allocation / signal.price →
        max 0 (if cfg.allowFractional then m else ((Int.floor m : Int) : ℚ)) *
          signal.price ≤ max allocation 0 := by
      intro m hm
      split_ifs with hf
      · exact alloc_cost_aux _ _ _ hp hm
      · exact alloc_cost_aux _ _ _ hp (le_trans (Int.floor_le _) hm)
    refine hfloor _ ?_
    rcases hvc : cfg.volatilityCallback with _ | vol <;> simp only [hvc]
    · exact le_refl _
    · split_ifs with hadj
      · exact mul_le_of_le_one_right hbase (getVolatilityAdjustment_le_one _)
      · exact le_refl _

theorem allocateEqually_cost_le_aux (cfg : AllocationConfig)
    (strategyName : String) (priceOf : String → ℚ) (a : ℚ) :
    ∀ l : List TradingSignal, (∀ s ∈ l, priceOf s.symbol = s.price) →
      ordersCost priceOf (l.filterMap (fun signal =>
        let quantity := calculatePositionSize cfg signal a
        if 0 < quantity then some (mkOrder signal quantity strategyName)
        else none)) ≤ (l.length : ℚ) * max a 0 := by
  intro l
  induction l with
  | nil => intro _; simp [ordersCost]
  | cons s rest ih =>
      intro hpf
      have hs : priceOf s.symbol = s.price := hpf s (List.mem_cons_self _ _)
      have hrec := ih (fun x hx => hpf x (List.mem_cons_of_mem _ hx))
      have hm : (0:ℚ) ≤ max a 0 := le_max_right a 0
      have hcost := calculatePositionSize_cost_le cfg s a
      by_cases hq : 0 < calculatePositionSize cfg s a
      · simp only [List.filterMap_cons, hq, if_true]
        rw [ordersCost_cons, mkOrder_quantity, mkOrder_symbol, hs]
        push_cast [List.length_cons]
        linarith
      · simp only [List.filterMap_cons, hq, if_false]
        push_cast [List.length_cons]
        linarith

theorem allocateEqually_cost_le (cfg : AllocationConfig)
    (signals : List TradingSignal) (tradableCash : ℚ) (strategyName : String)
    (priceOf : String → ℚ)
    (hps0 : 0 ≤ cfg.positionSize) (hps1 : cfg.positionSize ≤ 1)
    (htc : 0 ≤ tradableCash)
    (hpf : ∀ s ∈ signals, priceOf s.symbol = s.price) :
    ordersCost priceOf
      (allocateEqually cfg signals tradableCash strategyName) ≤ tradableCash := by
  have h := allocateEqually_cost_le_aux cfg strategyName priceOf
    (tradableCash * cfg.positionSize / (signals.length : ℚ)) signals hpf
  have hcap : tradableCash * cfg.positionSize ≤ tradableCash := by
    calc tradableCash * cfg.positionSize ≤ tradableCash * 1 :=
          mul_le_mul_of_nonneg_left hps1 htc
      _ = tradableCash := mul_one _
  have hb : (signals.length : ℚ) *
      max (tradableCash * cfg.positionSize / (signals.length : ℚ)) 0 ≤
      tradableCash := by
    rcases Nat.eq_zero_or_pos signals.length with h0 | h0
    · rw [h0]
      push_cast
      rw [zero_mul]
      exact htc
    · have hn : (0:ℚ) < (signals.length : ℚ) := by exact_mod_cast h0
      have hnum : 0 ≤ tradableCash * cfg.positionSize := mul_nonneg htc hps0
      rw [max_eq_left (div_nonneg hnum hn.le)]
      rw [mul_div_cancel₀ _ hn.ne']
      exact hcap
  exact le_trans h hb

theorem confidenceLoop_cost_le (cfg : AllocationConfig) (tc tcf : ℚ)
    (sn : String) (priceOf : String → ℚ) :
    ∀ (l : List TradingSignal) (r : ℚ), 0 ≤ r →
      (∀ s ∈ l, priceOf s.symbol = s.price) →
      ordersCost priceOf (confidenceLoop cfg tc tcf sn l r) ≤ r := by
  intro l
  induction l with
  | nil =>
      intro r hr _
      simpa [confidenceLoop, ordersCost] using hr
  | cons s rest ih =>
      intro r hr hpf
      have hs : priceOf s.symbol = s.price := hpf s (List.mem_cons_self _ _)
      have hpf' : ∀ x ∈ rest, priceOf x.symbol = x.price :=
        fun x hx => hpf x (List.mem_cons_of_mem _ hx)
      simp only [confidenceLoop]
      split_ifs
      all_goals try simpa [ordersCost] using hr
      all_goals try exact ih r hr hpf'
      all_goals (
        rw [ordersCost_cons, mkOrder_quantity, mkOrder_symbol, hs]
        refine le_trans (add_le_add_left (ih _ (by linarith) hpf') _) ?_
        linarith)

theorem priorityLoop_cost_le (cfg : AllocationConfig) (tc tp : ℚ)
    (sn : String) (priceOf : String → ℚ) :
    ∀ (l : List TradingSignal) (r : ℚ), 0 ≤ r →
      (∀ s ∈ l, priceOf s.symbol = s.price) →
      ordersCost priceOf (priorityLoop cfg tc tp sn l r) ≤ r := by
  intro l
  induction l with
  | nil =>
      intro r hr _
      simpa [priorityLoop, ordersCost] using hr
  | cons s rest ih =>
      intro r hr hpf
      have hs : priceOf s.symbol = s.price := hpf s (List.mem_cons_self _ _)
      have hpf' : ∀ x ∈ rest, priceOf x.symbol = x.price :=
        fun x hx => hpf x (List.mem_cons_of_mem _ hx)
      simp only [priorityLoop]
      split_ifs
      all_goals try simpa [ordersCost] using hr
      all_goals try exact ih r hr hpf'
      all_goals (
        rw [ordersCost_cons, mkOrder_quantity, mkOrder_symbol, hs]
        refine le_trans (add_le_add_left (ih _ (by linarith) hpf') _) ?_
        linarith)

theorem sequentialLoop_cost_le (cfg : AllocationConfig) (tc : ℚ)
    (sn : String) (priceOf : String → ℚ) :
    ∀ (l : List TradingSignal) (r : ℚ), 0 ≤ r →
      (∀ s ∈ l, priceOf s.symbol = s.price) →
      ordersCost priceOf (sequentialLoop cfg tc sn l r) ≤ r := by
  intro l
  induction l with
  | nil =>
      intro r hr _
      simpa [sequentialLoop, ordersCost] using hr
  | cons s rest ih =>
      intro r hr hpf
      have hs : priceOf s.symbol = s.price := hpf s (List.mem_cons_self _ _)
      have hpf' : ∀ x ∈ rest, priceOf x.symbol = x.price :=
        fun x hx => hpf x (List.mem_cons_of_mem _ hx)
      simp only [sequentialLoop]
      split_ifs
      all_goals try simpa [ordersCost] using hr
      all_goals try exact ih r hr hpf'
      all_goals (
        rw [ordersCost_cons, mkOrder_quantity, mkOrder_symbol, hs]
        refine le_trans (add_le_add_left (ih _ (by linarith) hpf') _) ?_
        linarith)

/-- C5: for every allocation policy, any configuration with
`PositionSize ∈ [0,1]`, and any batch of positively priced signals whose
per-symbol price is given by `priceOf`, the total cost `Σ order.quantity ×
price` of the emitted orders never exceeds `tradableCash`. -/
theorem c5_allocator_cost_bound (cfg : AllocationConfig)
    (method : AllocationMethod) (signals : List TradingSignal)
    (tradableCash : ℚ) (strategyName : String) (priceOf : String → ℚ)
    (hps0 : 0 ≤ cfg.positionSize) (hps1 : cfg.positionSize ≤ 1)
    (htc : 0 ≤ tradableCash)
    (hprice : ∀ s ∈ signals, 0 < s.price)
    (hpf : ∀ s ∈ signals, priceOf s.symbol = s.price) :
    ordersCost priceOf
      (allocateByMethod cfg method signals tradableCash strategyName) ≤
      tradableCash := by
  have hequal : ordersCost priceOf
      (allocateEqually cfg signals tradableCash strategyName) ≤ tradableCash :=
    allocateEqually_cost_le cfg signals tradableCash strategyName priceOf
      hps0 hps1 htc hpf
  have hstart : 0 ≤ tradableCash * cfg.positionSize := mul_nonneg htc hps0
  have hcap : tradableCash * cfg.positionSize ≤ tradableCash := by
    calc tradableCash * cfg.positionSize ≤ tradableCash * 1 :=
          mul_le_mul_of_nonneg_left hps1 htc
      _ = tradableCash := mul_one _
  cases method
  · exact hequal
  · simp only [allocateByMethod, allocateByConfidence]
    split_ifs
    · exact hequal
    · exact le_trans
        (confidenceLoop_cost_le cfg tradableCash _ strategyName priceOf
          signals (tradableCash * cfg.positionSize) hstart hpf) hcap
  · simp only [allocateByMethod, allocateByPriority]
    split_ifs
    · exact hequal
    · exact le_trans
        (priorityLoop_cost_le cfg tradableCash _ strategyName priceOf
          signals (tradableCash * cfg.positionSize) hstart hpf) hcap
  · exact sequentialLoop_cost_le cfg tradableCash strategyName priceOf
      signals tradableCash htc hpf

/-- C5 witness: the bound applied at the sequential policy, the default-style
configuration `c5Config`, two $10 signals and $1000 of tradable cash. -/
theorem c5_allocator_cost_bound_witness :
    ordersCost c5PriceOf
      (allocateByMethod c5Config AllocationMethod.sequential c5Signals 1000
        "strat") ≤ 1000 :=
  c5_allocator_cost_bound c5Config AllocationMethod.sequential c5Signals 1000
    "strat" c5PriceOf (by norm_num [c5Config]) (by norm_num [c5Config])
    (by norm_num)
    (by norm_num [c5Signals])
    (by norm_num [c5Signals, c5PriceOf])

/-- C9 witness: the limit-fill characterization at a concrete zero-friction
broker, a $50 limit buy and a bar with low 40 and high 55. -/
theorem c9_limit_order_fill_witness :
    ((∃ t, executeOrder c9Broker c9Order c9Bar 0 = Except.ok t ∧
        t.price = c9Order.price) ↔
      (if c9Order.side = OrderSide.buy then c9Bar.low ≤ c9Order.price
        else c9Order.price ≤ c9Bar.high)) ∧
    ((∃ e, executeOrder c9Broker c9Order c9Bar 0 = Except.error e) ↔
      ¬ (if c9Order.side = OrderSide.buy then c9Bar.low ≤ c9Order.price
        else c9Order.price ≤ c9Bar.high)) ∧
    (canExecuteOrder c9Broker c9Order c9Bar = true ↔
      (if c9Order.side = OrderSide.buy then c9Bar.low ≤ c9Order.price
        else c9Order.price ≤ c9Bar.high)) :=
  c9_limit_order_fill c9Broker c9Order c9Bar 0 rfl

end JonBuh
